import Mathlib

/-!
Verification of the STN serial diagnostic scripts.

This file gives a shallow embedding of the core routines of the repository:
the byte-pattern searches, the baud-switch handshake of
`STSBR_STBRT_115200_delay.py` (`read_stsbr_with_baud_switch`), the idle-based
reader `read_until_idle`, the interval reporting of `send_and_log`, the
command-byte construction, the transcript rendering (`make_visible`,
`visible_bytes`, hex dumps), the speed-change command classification, the
STSBR baud parsing, and the block parser `load_blocks` of the log-comparison
utility `Testing_logs/main.py`.

Bytes are modelled as `List Nat` (Python `bytes` elements, each < 256, which
theorems assume where needed).  Wall-clock instants are modelled as rationals;
the serial channel plus the polling loop of each script is modelled as a list
of `Poll`s, one per loop iteration, carrying the instant `time()` returns in
that iteration and the chunk `ser.read(ser.in_waiting)` returns (empty when
`in_waiting` is 0).
-/

/-! ### Rational helpers

`Rat.add`/`Rat.sub`/`Rat.mul` are irreducible, so the embedding uses the
following `mkRat`-based equivalents, which the kernel can evaluate; the
`q*_eq` lemmas restate them as the ordinary field operations. -/

def qadd (a b : ℚ) : ℚ := mkRat (a.num * b.den + b.num * a.den) (a.den * b.den)

def qsub (a b : ℚ) : ℚ := mkRat (a.num * b.den - b.num * a.den) (a.den * b.den)

def qmul (a b : ℚ) : ℚ := mkRat (a.num * b.num) (a.den * b.den)

theorem qadd_eq (a b : ℚ) : qadd a b = a + b := by
  have ha : ((a.den : ℚ)) ≠ 0 := by exact_mod_cast a.den_ne_zero
  have hb : ((b.den : ℚ)) ≠ 0 := by exact_mod_cast b.den_ne_zero
  rw [qadd, Rat.mkRat_eq_div]
  push_cast
  conv_rhs => rw [← Rat.num_div_den a, ← Rat.num_div_den b]
  field_simp

theorem qsub_eq (a b : ℚ) : qsub a b = a - b := by
  have ha : ((a.den : ℚ)) ≠ 0 := by exact_mod_cast a.den_ne_zero
  have hb : ((b.den : ℚ)) ≠ 0 := by exact_mod_cast b.den_ne_zero
  rw [qsub, Rat.mkRat_eq_div]
  push_cast
  conv_rhs => rw [← Rat.num_div_den a, ← Rat.num_div_den b]
  field_simp
  ring

theorem qmul_eq (a b : ℚ) : qmul a b = a * b := by
  have ha : ((a.den : ℚ)) ≠ 0 := by exact_mod_cast a.den_ne_zero
  have hb : ((b.den : ℚ)) ≠ 0 := by exact_mod_cast b.den_ne_zero
  rw [qmul, Rat.mkRat_eq_div]
  push_cast
  conv_rhs => rw [← Rat.num_div_den a, ← Rat.num_div_den b]
  field_simp

/-! ### Exact-subsequence search (Python `bytes.find`)

`matchesAt buf sub i` holds when `sub` occurs in `buf` starting at byte
offset `i`.  `bytesFind buf sub start` is Python's `buf.find(sub, start)`:
the least offset `≥ start` at which `sub` occurs, `none` standing for the
`-1` of the original. -/

def matchesAt (buf sub : List Nat) (i : Nat) : Bool :=
  decide (i + sub.length ≤ buf.length) &&
    (List.range sub.length).all (fun j => buf.getD (i + j) 0 == sub.getD j 0)

def bytesFindAux (buf sub : List Nat) : Nat → Nat → Option Nat
  | _, 0 => none
  | i, fuel + 1 =>
    if matchesAt buf sub i then some i else bytesFindAux buf sub (i + 1) fuel

def bytesFind (buf sub : List Nat) (start : Nat) : Option Nat :=
  bytesFindAux buf sub start (buf.length + 1 - start)

theorem matchesAt_append (buf ext sub : List Nat) (i : Nat)
    (h : matchesAt buf sub i = true) : matchesAt (buf ++ ext) sub i = true := by
  simp only [matchesAt, Bool.and_eq_true, decide_eq_true_eq, List.all_eq_true] at h ⊢
  obtain ⟨hlen, hall⟩ := h
  refine ⟨by simpa using Nat.le_trans hlen (Nat.le_add_right _ _), fun j hj => ?_⟩
  have hj' := hall j hj
  have hjlt : j < sub.length := by simpa using hj
  have hidx : i + j < buf.length := by omega
  have : (buf ++ ext).getD (i + j) 0 = buf.getD (i + j) 0 := by
    simp only [List.getD_eq_getElem?_getD]
    rw [List.getElem?_append_left hidx]
  rw [this]
  exact hj'

theorem bytesFindAux_spec (buf sub : List Nat) :
    ∀ fuel i p, bytesFindAux buf sub i fuel = some p →
      matchesAt buf sub p = true ∧ i ≤ p ∧ p < i + fuel ∧
        ∀ k, i ≤ k → k < p → matchesAt buf sub k = false := by
  intro fuel
  induction fuel with
  | zero => intro i p h; simp [bytesFindAux] at h
  | succ fuel ih =>
    intro i p h
    rw [bytesFindAux] at h
    by_cases hm : matchesAt buf sub i = true
    · rw [if_pos hm] at h
      cases h
      exact ⟨hm, Nat.le_refl _, by omega, fun k hk1 hk2 => by omega⟩
    · rw [if_neg hm] at h
      obtain ⟨h1, h2, h3, h4⟩ := ih (i + 1) p h
      refine ⟨h1, by omega, by omega, fun k hk1 hk2 => ?_⟩
      rcases Nat.eq_or_lt_of_le hk1 with rfl | hk
      · exact Bool.not_eq_true _ ▸ (by simpa using hm)
      · exact h4 k hk hk2

theorem bytesFindAux_complete (buf sub : List Nat) :
    ∀ fuel i j, i ≤ j → j < i + fuel → matchesAt buf sub j = true →
      ∃ p, bytesFindAux buf sub i fuel = some p ∧ p ≤ j := by
  intro fuel
  induction fuel with
  | zero => intro i j h1 h2; omega
  | succ fuel ih =>
    intro i j h1 h2 hm
    rw [bytesFindAux]
    by_cases hmi : matchesAt buf sub i = true
    · exact ⟨i, by rw [if_pos hmi], h1⟩
    · rw [if_neg hmi]
      have hij : i ≠ j := fun he => hmi (he ▸ hm)
      obtain ⟨p, hp, hpj⟩ := ih (i + 1) j (by omega) (by omega) hm
      exact ⟨p, hp, hpj⟩

theorem matchesAt_le_length (buf sub : List Nat) (i : Nat)
    (h : matchesAt buf sub i = true) : i + sub.length ≤ buf.length := by
  simp only [matchesAt, Bool.and_eq_true, decide_eq_true_eq] at h
  exact h.1

theorem bytesFind_spec (buf sub : List Nat) (start p : Nat)
    (h : bytesFind buf sub start = some p) :
    matchesAt buf sub p = true ∧ start ≤ p ∧
      ∀ k, start ≤ k → k < p → matchesAt buf sub k = false := by
  obtain ⟨h1, h2, _, h4⟩ := bytesFindAux_spec buf sub _ start p h
  exact ⟨h1, h2, h4⟩

theorem bytesFind_complete (buf sub : List Nat) (start j : Nat)
    (hj : start ≤ j) (hm : matchesAt buf sub j = true) :
    ∃ p, bytesFind buf sub start = some p ∧ p ≤ j := by
  have hjb : j ≤ buf.length := by
    have := matchesAt_le_length buf sub j hm
    omega
  exact bytesFindAux_complete buf sub _ start j hj (by omega) hm

/-! ### The anchored two-stage marker search

`find_after` is the two-stage search both `read_stsbr_t1_t2`
(`STSBR_STBRT_9600_delay.py`, lines 110-121: `buf.find(b"OK", 0)` then
`buf.find(b">", p_ok + 2)`) and `read_stsbr_with_baud_switch`
(`STSBR_STBRT_115200_delay.py`, lines 136-144: `buf_old.find(b"OK")` then
`buf_old.find(b"\r", ok_pos_end)`) perform on the accumulated buffer, with
the two markers generalized: anchor on `A` searched from offset 0, then
search `B` from the end of that match. -/

def find_after (buf A B : List Nat) : Option (Nat × Nat) :=
  match bytesFind buf A 0 with
  | none => none
  | some pA =>
    match bytesFind buf B (pA + A.length) with
    | none => none
    | some pB => some (pA, pB)

/-- C1: for every buffer containing an occurrence of marker `A` followed
(at or after the end of that occurrence) by an occurrence of marker `B`, the
anchored two-stage search succeeds, anchors on the earliest occurrence of
`A` (no occurrence exists strictly before the anchor), and returns a
position for `B` strictly greater than the end offset (the offset of the
last byte) of that first occurrence of `A`. -/
theorem find_after_anchors_first_occurrence (buf A B : List Nat) (i j : Nat)
    (hA : A ≠ []) (hi : matchesAt buf A i = true) (hj : matchesAt buf B j = true)
    (hij : i + A.length ≤ j) :
    ∃ pA pB, find_after buf A B = some (pA, pB) ∧
      matchesAt buf A pA = true ∧ pA ≤ i ∧
      (∀ k, k < pA → matchesAt buf A k = false) ∧
      pA + (A.length - 1) < pB := by
  obtain ⟨pA, hpA, hpAi⟩ := bytesFind_complete buf A 0 i (Nat.zero_le _) hi
  obtain ⟨hmA, _, hmin⟩ := bytesFind_spec buf A 0 pA hpA
  obtain ⟨pB, hpB, _⟩ :=
    bytesFind_complete buf B (pA + A.length) j (by omega) hj
  obtain ⟨_, hpBge, _⟩ := bytesFind_spec buf B (pA + A.length) pB hpB
  refine ⟨pA, pB, ?_, hmA, hpAi, fun k hk => hmin k (Nat.zero_le _) hk, ?_⟩
  · simp only [find_after, hpA, hpB]
  · have : 1 ≤ A.length := List.length_pos.mpr hA
    omega

/-- Witness for C1 at the spec's own scenario: buffer `b"OK\r\rOK\r\r>"`,
anchor `OK`, second marker `>`; the anchor is the first `OK` (offset 0). -/
theorem find_after_anchors_first_occurrence_witness :
    ∃ pA pB,
      find_after [79, 75, 13, 13, 79, 75, 13, 13, 62] [79, 75] [62] =
        some (pA, pB) ∧
      matchesAt [79, 75, 13, 13, 79, 75, 13, 13, 62] [79, 75] pA = true ∧
      pA ≤ 4 ∧
      (∀ k, k < pA →
        matchesAt [79, 75, 13, 13, 79, 75, 13, 13, 62] [79, 75] k = false) ∧
      pA + ([79, 75].length - 1) < pB :=
  find_after_anchors_first_occurrence
    [79, 75, 13, 13, 79, 75, 13, 13, 62] [79, 75] [62] 4 8
    (by decide) (by decide) (by decide) (by decide)

/-! ### The serial polling model

Each `Poll` is one iteration of a `while True:` read loop: `now` is the
instant `time()` returns in that iteration and `chunk` the bytes
`ser.read(ser.in_waiting)` returns (`[]` when `in_waiting` is 0).  The
`READ_SLICE_SLEEP` sleeps only space the polls out in time, so they need no
explicit model. -/

structure Poll where
  now : ℚ
  chunk : List Nat

/-! ### The baud-switch handshake of `STSBR_STBRT_115200_delay.py`

`read_stsbr_with_baud_switch` (lines 101-181): phase 1 reads at the old
baud until `OK` and then the first CR after `OK` are seen (or the deadline
passes); the host baud is reconfigured only when that CR was seen; phase 2
reads at the new baud until `>` is seen (or the deadline passes).  The
markers are `b"OK"`, `b"\r"` and `b">"`. -/

def okMarker : List Nat := [79, 75]

def crMarker : List Nat := [13]

def promptMarker : List Nat := [62]

structure Phase1State where
  buf_old : List Nat
  ok_time : Option ℚ
  cr1_time : Option ℚ
  ok_pos_end : Nat

/-- The body of one phase-1 iteration that received `chunk` at instant
`now` (lines 130-144): append the chunk, look for `OK` once, then for the
first `\r` at or after `ok_pos_end`. -/
def phase1Update (now : ℚ) (chunk : List Nat) (st : Phase1State) : Phase1State :=
  if chunk.isEmpty then st
  else
    let buf := st.buf_old ++ chunk
    match st.ok_time with
    | none =>
      match bytesFind buf okMarker 0 with
      | none => { st with buf_old := buf }
      | some pOk =>
        match bytesFind buf crMarker (pOk + 2) with
        | none =>
          { buf_old := buf, ok_time := some now, cr1_time := none,
            ok_pos_end := pOk + 2 }
        | some _ =>
          { buf_old := buf, ok_time := some now, cr1_time := some now,
            ok_pos_end := pOk + 2 }
    | some _ =>
      match st.cr1_time with
      | some _ => { st with buf_old := buf }
      | none =>
        match bytesFind buf crMarker st.ok_pos_end with
        | none => { st with buf_old := buf }
        | some _ => { st with buf_old := buf, cr1_time := some now }

/-- Phase 1 of `read_stsbr_with_baud_switch` (lines 125-146): loop until the
deadline passes or the first CR after `OK` is found.  Returns the final
state and the polls the loop did not consume. -/
def phase1 (deadline : ℚ) : List Poll → Phase1State → Phase1State × List Poll
  | [], st => (st, [])
  | p :: ps, st =>
    if deadline ≤ p.now then (st, ps)
    else
      let st' := phase1Update p.now p.chunk st
      if st'.cr1_time.isSome then (st', ps) else phase1 deadline ps st'

/-- Phase 2 of `read_stsbr_with_baud_switch` (lines 163-177): loop at the
new baud until the deadline passes or `>` appears in the phase-2 buffer. -/
def phase2 (deadline : ℚ) : List Poll → List Nat → Option ℚ → List Nat × Option ℚ
  | [], buf, pt => (buf, pt)
  | p :: ps, buf, pt =>
    if deadline ≤ p.now then (buf, pt)
    else if p.chunk.isEmpty then phase2 deadline ps buf pt
    else
      let buf' := buf ++ p.chunk
      if (bytesFind buf' promptMarker 0).isSome then (buf', some p.now)
      else phase2 deadline ps buf' pt

def initPhase1 : Phase1State :=
  { buf_old := [], ok_time := none, cr1_time := none, ok_pos_end := 0 }

structure BaudSwitchResult where
  data_all : List Nat
  ok_time : Option ℚ
  prompt_time : Option ℚ
  cr1_time : Option ℚ
  final_baud : Nat

/-- `read_stsbr_with_baud_switch(ser, t_tx, new_baud, timeout_sec)`
(lines 101-181).  `deadline = t_tx + timeout_sec`; the host baud is set to
`new_baud` only in the `if cr1_time is not None:` block (line 148); the
`sleep(0.01)` and `ser.reset_input_buffer()` of that block only shape which
chunks the phase-2 polls deliver.  `final_baud` is the host-side port speed
when the call returns, `old_baud` being the speed it had on entry. -/
def read_stsbr_with_baud_switch (polls : List Poll) (t_tx timeout_sec : ℚ)
    (old_baud new_baud : Nat) : BaudSwitchResult :=
  let deadline := qadd t_tx timeout_sec
  let s := phase1 deadline polls initPhase1
  let p2 := phase2 deadline s.2 [] none
  { data_all := s.1.buf_old ++ p2.1
    ok_time := s.1.ok_time
    prompt_time := p2.2
    cr1_time := s.1.cr1_time
    final_baud := if s.1.cr1_time.isSome then new_baud else old_baud }

theorem phase1_rest_past_deadline (deadline : ℚ) :
    ∀ (polls : List Poll) (st : Phase1State),
      List.Pairwise (fun p q => p.now ≤ q.now) polls →
      (phase1 deadline polls st).1.cr1_time = none →
      ∀ q ∈ (phase1 deadline polls st).2, deadline ≤ q.now := by
  intro polls
  induction polls with
  | nil => intro st _ _ q hq; simp [phase1] at hq
  | cons p ps ih =>
    intro st hpw hcr q hq
    rw [phase1] at hcr hq
    by_cases hd : deadline ≤ p.now
    · rw [if_pos hd] at hcr hq
      have hpq : p.now ≤ q.now := (List.pairwise_cons.mp hpw).1 q hq
      exact le_trans hd hpq
    · rw [if_neg hd] at hcr hq
      by_cases hsome : (phase1Update p.now p.chunk st).cr1_time.isSome
      · rw [if_pos hsome] at hcr
        simp only at hcr
        rw [hcr] at hsome
        simp at hsome
      · rw [if_neg hsome] at hcr hq
        exact ih _ (List.pairwise_cons.mp hpw).2 hcr q hq

theorem phase2_past_deadline (deadline : ℚ) (polls : List Poll)
    (buf : List Nat) (pt : Option ℚ)
    (h : ∀ q ∈ polls, deadline ≤ q.now) :
    phase2 deadline polls buf pt = (buf, pt) := by
  cases polls with
  | nil => rfl
  | cons p ps =>
    rw [phase2, if_pos (h p (List.mem_cons_self p ps))]

/-- C2: in the two-step baud transition of `read_stsbr_with_baud_switch`
(step 1: await `OK` + CR at the old baud; step 2: await `>` at the new
baud), if step 1 expires before its marker is found (`cr1_time` ends up
`None`), then step 2 reads no bytes and records no timestamp: the run still
returns a value, with `None` for `prompt_time` (and `cr1_time`), the
captured data being exactly the step-1 bytes and `ok_time` exactly what
step 1 captured. -/
theorem read_stsbr_step1_timeout_skips_step2 (polls : List Poll)
    (t_tx timeout_sec : ℚ) (old_baud new_baud : Nat)
    (hpw : List.Pairwise (fun p q => p.now ≤ q.now) polls)
    (hcr : (read_stsbr_with_baud_switch polls t_tx timeout_sec
        old_baud new_baud).cr1_time = none) :
    (read_stsbr_with_baud_switch polls t_tx timeout_sec old_baud
        new_baud).prompt_time = none ∧
    (read_stsbr_with_baud_switch polls t_tx timeout_sec old_baud
        new_baud).data_all =
      (phase1 (qadd t_tx timeout_sec) polls initPhase1).1.buf_old ∧
    (read_stsbr_with_baud_switch polls t_tx timeout_sec old_baud
        new_baud).ok_time =
      (phase1 (qadd t_tx timeout_sec) polls initPhase1).1.ok_time := by
  have hcr' : (phase1 (qadd t_tx timeout_sec) polls initPhase1).1.cr1_time
      = none := hcr
  have hrest := phase1_rest_past_deadline (qadd t_tx timeout_sec) polls
    initPhase1 hpw hcr'
  have h2 := phase2_past_deadline (qadd t_tx timeout_sec)
    (phase1 (qadd t_tx timeout_sec) polls initPhase1).2 [] none hrest
  constructor
  · show (phase2 (qadd t_tx timeout_sec)
      (phase1 (qadd t_tx timeout_sec) polls initPhase1).2 [] none).2 = none
    rw [h2]
  constructor
  · show (phase1 (qadd t_tx timeout_sec) polls initPhase1).1.buf_old ++
      (phase2 (qadd t_tx timeout_sec)
        (phase1 (qadd t_tx timeout_sec) polls initPhase1).2 [] none).1 = _
    rw [h2, List.append_nil]
  · rfl

/-- Witness for C2: a run whose only activity is a single quiet poll past
the deadline (`t_tx = 0`, timeout 6 s, poll at t = 10 s); step 1 times out
having captured nothing and step 2 reads nothing. -/
theorem read_stsbr_step1_timeout_skips_step2_witness :
    (read_stsbr_with_baud_switch [⟨10, []⟩] 0 6 9600 115200).prompt_time
        = none ∧
    (read_stsbr_with_baud_switch [⟨10, []⟩] 0 6 9600 115200).data_all =
      (phase1 (qadd 0 6) [⟨10, []⟩] initPhase1).1.buf_old ∧
    (read_stsbr_with_baud_switch [⟨10, []⟩] 0 6 9600 115200).ok_time =
      (phase1 (qadd 0 6) [⟨10, []⟩] initPhase1).1.ok_time :=
  read_stsbr_step1_timeout_skips_step2 [⟨10, []⟩] 0 6 9600 115200
    (by decide) (by decide)

/-! ### C3: the host baud is reconfigured only on marker detection

`hasOkCr bs` says the pre-switch marker pattern is present in `bs`: an
occurrence of `OK` with a CR wholly after it. -/

def hasOkCr (bs : List Nat) : Bool :=
  (List.range (bs.length + 1)).any (fun p =>
    matchesAt bs okMarker p &&
      (List.range (bs.length + 1)).any (fun q =>
        decide (p + 2 ≤ q) && matchesAt bs crMarker q))

theorem hasOkCr_intro (bs : List Nat) (p q : Nat)
    (hp : matchesAt bs okMarker p = true) (hq : matchesAt bs crMarker q = true)
    (hpq : p + 2 ≤ q) : hasOkCr bs = true := by
  have hpb : p + 2 ≤ bs.length := matchesAt_le_length bs okMarker p hp
  have hqb : q + 1 ≤ bs.length := matchesAt_le_length bs crMarker q hq
  rw [hasOkCr, List.any_eq_true]
  refine ⟨p, List.mem_range.mpr (by omega), ?_⟩
  rw [Bool.and_eq_true, List.any_eq_true]
  exact ⟨hp, q, List.mem_range.mpr (by omega),
    by rw [Bool.and_eq_true]; exact ⟨by simpa using hpq, hq⟩⟩

theorem hasOkCr_elim (bs : List Nat) (h : hasOkCr bs = true) :
    ∃ p q, matchesAt bs okMarker p = true ∧ matchesAt bs crMarker q = true ∧
      p + 2 ≤ q := by
  rw [hasOkCr, List.any_eq_true] at h
  obtain ⟨p, _, hp⟩ := h
  rw [Bool.and_eq_true, List.any_eq_true] at hp
  obtain ⟨hpm, q, _, hq⟩ := hp
  rw [Bool.and_eq_true] at hq
  exact ⟨p, q, hpm, hq.2, by simpa using hq.1⟩

theorem hasOkCr_append (bs ext : List Nat) (h : hasOkCr bs = true) :
    hasOkCr (bs ++ ext) = true := by
  obtain ⟨p, q, hp, hq, hpq⟩ := hasOkCr_elim bs h
  exact hasOkCr_intro (bs ++ ext) p q (matchesAt_append bs ext okMarker p hp)
    (matchesAt_append bs ext crMarker q hq) hpq

/-- The phase-1 loop invariant: no CR-after-OK has been recorded, and if
`OK` has been recorded then `ok_pos_end` is the end offset of an actual
occurrence of `OK` in the accumulated buffer. -/
def Phase1Inv (st : Phase1State) : Prop :=
  st.cr1_time = none ∧
    (st.ok_time.isSome →
      ∃ p, matchesAt st.buf_old okMarker p = true ∧ st.ok_pos_end = p + 2)

theorem phase1Update_inv (now : ℚ) (chunk : List Nat) (st : Phase1State)
    (hinv : Phase1Inv st)
    (hno : hasOkCr (st.buf_old ++ chunk) = false) :
    Phase1Inv (phase1Update now chunk st) ∧
      (phase1Update now chunk st).buf_old = st.buf_old ++ chunk := by
  obtain ⟨hcr, hok⟩ := hinv
  by_cases hc : chunk.isEmpty
  · rw [phase1Update, if_pos hc]
    have : chunk = [] := List.isEmpty_iff.mp hc
    subst this
    exact ⟨⟨hcr, hok⟩, by rw [List.append_nil]⟩
  · cases hokt : st.ok_time with
    | none =>
      cases hfind : bytesFind (st.buf_old ++ chunk) okMarker 0 with
      | none =>
        simp only [phase1Update, if_neg hc, hokt, hfind]
        exact ⟨⟨hcr, fun hs => absurd hs (by simp)⟩, by simp⟩
      | some pOk =>
        obtain ⟨hpm, _, _⟩ := bytesFind_spec _ _ _ _ hfind
        cases hcrf : bytesFind (st.buf_old ++ chunk) crMarker (pOk + 2) with
        | none =>
          simp only [phase1Update, if_neg hc, hokt, hfind, hcrf]
          exact ⟨⟨rfl, fun _ => ⟨pOk, hpm, rfl⟩⟩, by simp⟩
        | some q =>
          obtain ⟨hqm, hqge, _⟩ := bytesFind_spec _ _ _ _ hcrf
          have := hasOkCr_intro (st.buf_old ++ chunk) pOk q hpm hqm hqge
          rw [this] at hno
          exact absurd hno (by simp)
    | some t =>
      obtain ⟨p, hpm, hpe⟩ := hok (by rw [hokt]; rfl)
      cases hcrf : bytesFind (st.buf_old ++ chunk) crMarker st.ok_pos_end with
      | none =>
        simp only [phase1Update, if_neg hc, hokt, hcr, hcrf]
        exact ⟨⟨rfl, fun _ => ⟨p, matchesAt_append _ _ _ _ hpm, hpe⟩⟩, by simp⟩
      | some q =>
        obtain ⟨hqm, hqge, _⟩ := bytesFind_spec _ _ _ _ hcrf
        have := hasOkCr_intro (st.buf_old ++ chunk) p q
          (matchesAt_append _ _ _ _ hpm) hqm (by omega)
        rw [this] at hno
        exact absurd hno (by simp)

/-- The chunks phase 1 can ever consume: those of the polls strictly before
the deadline, up to the first poll at or past it. -/
def preDeadlineBytes (deadline : ℚ) (polls : List Poll) : List Nat :=
  List.flatten ((polls.takeWhile (fun p => decide (p.now < deadline))).map
    Poll.chunk)

theorem phase1_no_marker (deadline : ℚ) :
    ∀ (polls : List Poll) (st : Phase1State), Phase1Inv st →
      hasOkCr (st.buf_old ++ preDeadlineBytes deadline polls) = false →
      (phase1 deadline polls st).1.cr1_time = none := by
  intro polls
  induction polls with
  | nil => intro st hinv _; exact hinv.1
  | cons p ps ih =>
    intro st hinv hno
    rw [phase1]
    by_cases hd : deadline ≤ p.now
    · rw [if_pos hd]; exact hinv.1
    · rw [if_neg hd]
      have hlt : p.now < deadline := lt_of_not_le hd
      have hpre : preDeadlineBytes deadline (p :: ps) =
          p.chunk ++ preDeadlineBytes deadline ps := by
        rw [preDeadlineBytes, List.takeWhile_cons,
          if_pos (by simpa using hlt)]
        rw [List.map_cons, List.flatten_cons]
        rfl
      rw [hpre, ← List.append_assoc] at hno
      have hno1 : hasOkCr (st.buf_old ++ p.chunk) = false := by
        by_contra hcon
        have : hasOkCr (st.buf_old ++ p.chunk) = true := by
          cases hval : hasOkCr (st.buf_old ++ p.chunk)
          · exact absurd hval hcon
          · rfl
        have := hasOkCr_append _ (preDeadlineBytes deadline ps) this
        rw [this] at hno
        exact absurd hno (by simp)
      obtain ⟨hinv', hbuf⟩ := phase1Update_inv p.now p.chunk st hinv hno1
      have hcrnone : (phase1Update p.now p.chunk st).cr1_time = none :=
        hinv'.1
      rw [if_neg (by rw [hcrnone]; simp)]
      exact ih _ hinv' (by rw [hbuf]; exact hno)

/-- C3: the host port speed is reconfigured to the new rate only after the
pre-switch marker (the first CR following `OK`) is detected; in every run
whose pre-deadline byte stream never contains an `OK` with a CR after it,
`cr1_time` stays `None` and the host port speed is left at the old baud. -/
theorem read_stsbr_no_marker_keeps_baud (polls : List Poll)
    (t_tx timeout_sec : ℚ) (old_baud new_baud : Nat)
    (hno : hasOkCr (preDeadlineBytes (qadd t_tx timeout_sec) polls) = false) :
    (read_stsbr_with_baud_switch polls t_tx timeout_sec old_baud
        new_baud).cr1_time = none ∧
    (read_stsbr_with_baud_switch polls t_tx timeout_sec old_baud
        new_baud).final_baud = old_baud := by
  have hinv : Phase1Inv initPhase1 := ⟨rfl, by intro h; simp [initPhase1] at h⟩
  have hcr := phase1_no_marker (qadd t_tx timeout_sec) polls initPhase1 hinv
    (by rw [initPhase1]; simpa using hno)
  refine ⟨hcr, ?_⟩
  show (if (phase1 (qadd t_tx timeout_sec) polls
      initPhase1).1.cr1_time.isSome then new_baud else old_baud) = old_baud
  rw [hcr]
  rfl

/-- Witness for C3: the device answers `OK` before the deadline but the CR
after it arrives only after the deadline (polls at t = 1 s and t = 10 s,
deadline 6 s), so the host stays at 9600. -/
theorem read_stsbr_no_marker_keeps_baud_witness :
    (read_stsbr_with_baud_switch [⟨1, [79, 75]⟩, ⟨10, [13, 62]⟩] 0 6 9600
        115200).cr1_time = none ∧
    (read_stsbr_with_baud_switch [⟨1, [79, 75]⟩, ⟨10, [13, 62]⟩] 0 6 9600
        115200).final_baud = 9600 :=
  read_stsbr_no_marker_keeps_baud [⟨1, [79, 75]⟩, ⟨10, [13, 62]⟩] 0 6 9600
    115200 (by decide)

/-! ### The idle-based reader

`read_until_idle` (`STSBR_STBRT_115200_delay.py`, lines 52-67; the same
loop is `read_until_quiet` in `STN_Scripts/STPX.py`, lines 63-76): keep
polling; a nonempty read refreshes `last_rx`; an empty poll ends the loop
when `time() - last_rx >= idle_gap`.  The loop has no other exit, so over a
finite observation window it either breaks (`some buf`) or is still waiting
when the window ends (`none`). -/

def read_until_idle (idle_gap : ℚ) :
    List Poll → List Nat × ℚ → Option (List Nat)
  | [], _ => none
  | p :: ps, (buf, last_rx) =>
    if p.chunk.isEmpty then
      if idle_gap ≤ qsub p.now last_rx then some buf
      else read_until_idle idle_gap ps (buf, last_rx)
    else read_until_idle idle_gap ps (buf ++ p.chunk, p.now)

/-- The instant of the most recent nonempty chunk in `ps` (`last_rx` after
processing `ps`, starting from `t0`). -/
def lastRx (t0 : ℚ) (ps : List Poll) : ℚ :=
  ps.foldl (fun acc p => if p.chunk.isEmpty then acc else p.now) t0

/-- C4: whenever the idle-based read with threshold `idle_gap` returns, it
returns exactly the concatenation of all bytes received up to that point
(the chunks of the polls before the terminating one), and the terminating
poll is an empty one whose instant is at least `idle_gap` past the time of
the last byte actually received — so the loop never exits early while bytes
keep arriving within the gap. -/
theorem read_until_idle_returns_after_quiet_gap (idle_gap : ℚ) :
    ∀ (polls : List Poll) (buf : List Nat) (last_rx : ℚ) (out : List Nat),
      read_until_idle idle_gap polls (buf, last_rx) = some out →
      ∃ k, k < polls.length ∧
        out = buf ++ List.flatten ((polls.take k).map Poll.chunk) ∧
        (polls.getD k ⟨0, []⟩).chunk = [] ∧
        idle_gap ≤ (polls.getD k ⟨0, []⟩).now - lastRx last_rx (polls.take k) := by
  intro polls
  induction polls with
  | nil => intro buf last_rx out h; simp [read_until_idle] at h
  | cons p ps ih =>
    intro buf last_rx out h
    rw [read_until_idle] at h
    by_cases hc : p.chunk.isEmpty
    · rw [if_pos hc] at h
      by_cases hgap : idle_gap ≤ qsub p.now last_rx
      · rw [if_pos hgap] at h
        refine ⟨0, by simp, ?_, ?_, ?_⟩
        · cases h; simp
        · simpa using List.isEmpty_iff.mp hc
        · rw [qsub_eq] at hgap
          simpa [lastRx] using hgap
      · rw [if_neg hgap] at h
        obtain ⟨k, hk, hout, hek, hgk⟩ := ih buf last_rx out h
        refine ⟨k + 1, by simpa using hk, ?_, by simpa using hek, ?_⟩
        · rw [hout]
          rw [List.take_succ_cons, List.map_cons, List.flatten_cons,
            List.isEmpty_iff.mp hc]
          rfl
        · rw [List.getD_cons_succ, List.take_succ_cons]
          rw [lastRx, List.foldl_cons, if_pos hc]
          exact hgk
    · rw [if_neg hc] at h
      obtain ⟨k, hk, hout, hek, hgk⟩ := ih (buf ++ p.chunk) p.now out h
      refine ⟨k + 1, by simpa using hk, ?_, by simpa using hek, ?_⟩
      · rw [hout]
        rw [List.take_succ_cons, List.map_cons, List.flatten_cons,
          List.append_assoc]
      · rw [List.getD_cons_succ, List.take_succ_cons]
        rw [lastRx, List.foldl_cons, if_neg hc]
        exact hgk

/-- Witness for C4, at the spec's scenario shape with idle gap 0.3 s: one
byte arrives at t = 0.05 s; the empty poll at t = 0.2 s sits inside the
gap (0.15 s of silence), so the read keeps waiting; the empty poll at
t = 0.41 s (0.36 s of silence) ends the read with exactly the received
byte. -/
theorem read_until_idle_returns_after_quiet_gap_witness :
    read_until_idle (mkRat 3 10)
        [⟨mkRat 5 100, [65]⟩, ⟨mkRat 2 10, []⟩, ⟨mkRat 41 100, []⟩]
        ([], 0) = some [65] ∧
      ∃ k, k < 3 ∧
        [65] = [] ++ List.flatten
          (([(⟨mkRat 5 100, [65]⟩ : Poll), ⟨mkRat 2 10, []⟩,
            ⟨mkRat 41 100, []⟩].take k).map Poll.chunk) ∧
        ([(⟨mkRat 5 100, [65]⟩ : Poll), ⟨mkRat 2 10, []⟩,
            ⟨mkRat 41 100, []⟩].getD k ⟨0, []⟩).chunk = [] ∧
        mkRat 3 10 ≤
          ([(⟨mkRat 5 100, [65]⟩ : Poll), ⟨mkRat 2 10, []⟩,
            ⟨mkRat 41 100, []⟩].getD k ⟨0, []⟩).now -
            lastRx 0 ([(⟨mkRat 5 100, [65]⟩ : Poll), ⟨mkRat 2 10, []⟩,
              ⟨mkRat 41 100, []⟩].take k) :=
  ⟨by decide,
    read_until_idle_returns_after_quiet_gap (mkRat 3 10)
      [⟨mkRat 5 100, [65]⟩, ⟨mkRat 2 10, []⟩, ⟨mkRat 41 100, []⟩]
      [] 0 [65] (by decide)⟩

/-! ### Interval reporting of `send_and_log`

For an STSBR command, `send_and_log` (`STSBR_STBRT_115200_delay.py`,
lines 219-237; `STSBR_STBRT_9600_delay.py`, lines 153-165) reports
`T1 = (ok_t - t_tx) * 1000.0`, `CR1 = (cr1_t - t_tx) * 1000.0` and
`T2 = (prompt_t - ok_t) * 1000.0`, each in milliseconds, only when the
contributing timestamps were captured. -/

structure ReportedTimings where
  t1_ms : Option ℚ
  cr1_ms : Option ℚ
  t2_ms : Option ℚ

def report_timings (t_tx : ℚ) (r : BaudSwitchResult) : ReportedTimings :=
  { t1_ms := r.ok_time.map (fun t => qmul (qsub t t_tx) 1000)
    cr1_ms := r.cr1_time.map (fun t => qmul (qsub t t_tx) 1000)
    t2_ms :=
      match r.ok_time, r.prompt_time with
      | some a, some b => some (qmul (qsub b a) 1000)
      | _, _ => none }

/-- C5: every elapsed interval the session reports equals exactly the
literal difference of the two contributing timestamps (later minus earlier)
multiplied by 1000 — milliseconds with no correction of any kind: for a run
of the baud-switch handshake that captured `OK` at `t_ok`, the reported T1
is exactly `(t_ok - t_tx) * 1000`, and likewise for the CR1 and T2
intervals from their own timestamps. -/
theorem report_timings_literal_difference (polls : List Poll)
    (t_tx timeout_sec : ℚ) (old_baud new_baud : Nat) (t_ok : ℚ)
    (hok : (read_stsbr_with_baud_switch polls t_tx timeout_sec old_baud
        new_baud).ok_time = some t_ok) :
    (report_timings t_tx (read_stsbr_with_baud_switch polls t_tx timeout_sec
        old_baud new_baud)).t1_ms = some ((t_ok - t_tx) * 1000) ∧
    (∀ t_cr, (read_stsbr_with_baud_switch polls t_tx timeout_sec old_baud
          new_baud).cr1_time = some t_cr →
      (report_timings t_tx (read_stsbr_with_baud_switch polls t_tx
          timeout_sec old_baud new_baud)).cr1_ms =
        some ((t_cr - t_tx) * 1000)) ∧
    (∀ t_pr, (read_stsbr_with_baud_switch polls t_tx timeout_sec old_baud
          new_baud).prompt_time = some t_pr →
      (report_timings t_tx (read_stsbr_with_baud_switch polls t_tx
          timeout_sec old_baud new_baud)).t2_ms =
        some ((t_pr - t_ok) * 1000)) := by
  refine ⟨?_, fun t_cr hcr => ?_, fun t_pr hpr => ?_⟩
  · show ((read_stsbr_with_baud_switch polls t_tx timeout_sec old_baud
        new_baud).ok_time.map (fun t => qmul (qsub t t_tx) 1000)) = _
    rw [hok]
    simp [qsub_eq, qmul_eq]
  · show ((read_stsbr_with_baud_switch polls t_tx timeout_sec old_baud
        new_baud).cr1_time.map (fun t => qmul (qsub t t_tx) 1000)) = _
    rw [hcr]
    simp [qsub_eq, qmul_eq]
  · show (match (read_stsbr_with_baud_switch polls t_tx timeout_sec old_baud
          new_baud).ok_time,
        (read_stsbr_with_baud_switch polls t_tx timeout_sec old_baud
          new_baud).prompt_time with
      | some a, some b => some (qmul (qsub b a) 1000)
      | _, _ => none) = _
    rw [hok, hpr]
    simp only [qsub_eq, qmul_eq]

/-- Witness for C5, at the spec's numeric example: transmit at
t = 100.000000 s, `OK` and its CR detected at t = 100.123456 s, prompt at
t = 100.150000 s; the reported T1 is exactly 123.456 ms and T2 exactly
26.544 ms. -/
theorem report_timings_literal_difference_witness :
    (report_timings 100 (read_stsbr_with_baud_switch
        [⟨mkRat 100123456 1000000, [79, 75, 13]⟩, ⟨mkRat 10015 100, [13, 62]⟩]
        100 6 9600 115200)).t1_ms =
      some ((mkRat 100123456 1000000 - 100) * 1000) ∧
    ((mkRat 100123456 1000000 : ℚ) - 100) * 1000 = mkRat 123456 1000 :=
  ⟨(report_timings_literal_difference
      [⟨mkRat 100123456 1000000, [79, 75, 13]⟩, ⟨mkRat 10015 100, [13, 62]⟩]
      100 6 9600 115200 (mkRat 100123456 1000000) (by decide)).1,
    by rw [← qsub_eq, ← qmul_eq]; decide⟩

/-! ### Python string primitives on codepoint lists

Command strings are modelled as lists of codepoints.  `codes` turns a Lean
string literal into that form.  `upperAscii` is `str.upper()` restricted to
ASCII (all commands in the scripts are ASCII), `pyStrip` is `str.strip()`,
`pyStartsWith`/`pyEndsWith`/`pyContains` are `startswith`/`endswith`/`in`,
and `encodeAsciiIgnore` is `str.encode("ascii", errors="ignore")`, which
drops every non-ASCII codepoint. -/

def codes (s : String) : List Nat := s.data.map Char.toNat

def isSpaceByte (c : Nat) : Bool :=
  decide (c = 32 ∨ c = 9 ∨ c = 10 ∨ c = 13 ∨ c = 11 ∨ c = 12)

def upperAscii (s : List Nat) : List Nat :=
  s.map (fun c => if 97 ≤ c ∧ c ≤ 122 then c - 32 else c)

def pyStrip (s : List Nat) : List Nat :=
  ((s.dropWhile isSpaceByte).reverse.dropWhile isSpaceByte).reverse

def pyStartsWith (s pre : List Nat) : Bool := matchesAt s pre 0

def pyEndsWith (s suf : List Nat) : Bool :=
  matchesAt s suf (s.length - suf.length)

def pyContains (s sub : List Nat) : Bool := (bytesFind s sub 0).isSome

def encodeAsciiIgnore (s : List Nat) : List Nat := s.filter (fun c => c < 128)

theorem pyStartsWith_pyContains (s pre : List Nat)
    (h : pyStartsWith s pre = true) : pyContains s pre = true := by
  rw [pyContains, bytesFind]
  have hlen : s.length + 1 - 0 = s.length + 1 := by omega
  rw [hlen, bytesFindAux, if_pos (by exact h)]
  rfl

/-! ### Command-byte construction (C6)

`STBR_delay_1ms.py` (lines 112-113):
`if not cmd.endswith(TX_NEWLINE): cmd += TX_NEWLINE` then
`cmd_b = cmd.encode("ascii", errors="ignore")` — the CR is conditional.
`STN_Scripts/STSBR_STBRT.py` (lines 80-81) and `STSBR_ATI_CR.py`
(lines 135-136): `cmd += TX_NEWLINE` then the same encode — the CR is
appended unconditionally (`TX_NEWLINE = "\r"`). -/

def cmd_b_conditional_cr (cmd : List Nat) : List Nat :=
  encodeAsciiIgnore (if cmd.getLast? = some 13 then cmd else cmd ++ [13])

def cmd_b_unconditional_cr (cmd : List Nat) : List Nat :=
  encodeAsciiIgnore (cmd ++ [13])

/-- C6 counterexample: the claim "no additional CR is appended when the
command string already ends with a carriage return" fails for the
`send_and_log` of `STSBR_STBRT.py` and of `STSBR_ATI_CR.py`: the command
`"\r"` (which literally appears in `STSBR_ATI_CR.py`'s `SEQUENCE`) already
ends with a CR, yet the bytes written are two CR bytes, not one. -/
theorem cmd_b_unconditional_cr_appends_to_cr :
    [(13 : Nat)].getLast? = some 13 ∧
      cmd_b_unconditional_cr [13] = [13, 13] ∧
      cmd_b_unconditional_cr [13] ≠ [13] := by decide

/-- C6 amended: for every ASCII command, all three `send_and_log` variants
transmit the command text followed by one CR when the command does not end
with a CR; when it does end with a CR, `STBR_delay_1ms.py` transmits it
unchanged (no additional CR) while `STSBR_STBRT.py` and `STSBR_ATI_CR.py`
still append one more CR. -/
theorem cmd_b_cr_semantics (cmd : List Nat) (hascii : ∀ c ∈ cmd, c < 128) :
    (cmd.getLast? ≠ some 13 →
      cmd_b_conditional_cr cmd = cmd ++ [13] ∧
        cmd_b_unconditional_cr cmd = cmd ++ [13]) ∧
    (cmd.getLast? = some 13 →
      cmd_b_conditional_cr cmd = cmd ∧
        cmd_b_unconditional_cr cmd = cmd ++ [13]) := by
  have hall : encodeAsciiIgnore (cmd ++ [13]) = cmd ++ [13] := by
    rw [encodeAsciiIgnore, List.filter_eq_self]
    intro c hc
    rcases List.mem_append.mp hc with hc | hc
    · exact decide_eq_true (hascii c hc)
    · simp at hc
      subst hc
      decide
  have hself : encodeAsciiIgnore cmd = cmd := by
    rw [encodeAsciiIgnore, List.filter_eq_self]
    intro c hc
    exact decide_eq_true (hascii c hc)
  constructor
  · intro hne
    rw [cmd_b_conditional_cr, if_neg hne, cmd_b_unconditional_cr]
    exact ⟨hall, hall⟩
  · intro he
    rw [cmd_b_conditional_cr, if_pos he, cmd_b_unconditional_cr]
    exact ⟨hself, hall⟩

/-- Witness for the amended C6 at command `"ATI"` and command `"ATI\r"`. -/
theorem cmd_b_cr_semantics_witness :
    (cmd_b_conditional_cr [65, 84, 73] = [65, 84, 73, 13] ∧
      cmd_b_unconditional_cr [65, 84, 73] = [65, 84, 73, 13]) ∧
    (cmd_b_conditional_cr [65, 84, 73, 13] = [65, 84, 73, 13] ∧
      cmd_b_unconditional_cr [65, 84, 73, 13] = [65, 84, 73, 13, 13]) :=
  ⟨(cmd_b_cr_semantics [65, 84, 73] (by decide)).1 (by decide),
    (cmd_b_cr_semantics [65, 84, 73, 13] (by decide)).2 (by decide)⟩

/-! ### Transcript rendering (C7)

`make_visible` (`STN_Scripts/STSBR_STBRT.py`, lines 58-69) renders one byte
at a time but aborts on a zero byte (`if not x: break`); the per-byte
mapping is otherwise identical to `visible_bytes` of `STN_Scripts/STPX.py`
(lines 35-48), which has no such break.  The hex line of
`STSBR_STBRT.read_until` (line 53) renders a zero byte as a literal NUL
character (`f"{x:02X}" if x else '\0'`), while STPX's `hex_bytes`
(lines 50-51) renders every byte as two uppercase hex digits. -/

def hexDigit (n : Nat) : Char :=
  if n < 10 then Char.ofNat (48 + n) else Char.ofNat (55 + n)

def hex2 (x : Nat) : String := String.mk [hexDigit (x / 16), hexDigit (x % 16)]

/-- The shared per-byte case chain of `make_visible` and `visible_bytes`. -/
def visByte (x : Nat) : String :=
  if x = 0x20 then "·"
  else if x = 0x0D then "<CR>"
  else if x = 0x0A then "<LF>\n"
  else if x = 0x09 then "<TAB>"
  else if 0x21 ≤ x ∧ x ≤ 0x7E then String.mk [Char.ofNat x]
  else "\\x" ++ hex2 x

def make_visible : List Nat → String
  | [] => ""
  | x :: xs => if x = 0 then "" else visByte x ++ make_visible xs

def visible_bytes : List Nat → String
  | [] => ""
  | x :: xs => visByte x ++ visible_bytes xs

def hex_bytes (b : List Nat) : String := String.intercalate " " (b.map hex2)

def hex_line_stn (b : List Nat) : String :=
  String.intercalate " "
    (b.map (fun x => if x = 0 then String.mk [Char.ofNat 0] else hex2 x))

/-- The transcript section written by `write_log_section` of
`STSBR_STBRT.py` (lines 71-72) for received bytes `b`: the byte count, the
visible rendering and the hex line. -/
def write_log_section_stn (b : List Nat) : String :=
  "len=" ++ toString b.length ++ "\n" ++ make_visible b ++ "\nHEX: " ++
    hex_line_stn b

/-- The per-byte visible rendering exactly as the spec words it: space to
`·`, CR to `<CR>`, LF to `<LF>` followed by a newline, TAB to `<TAB>`,
printable ASCII 0x21-0x7E to the character itself, and every other byte to
`\xHH`. -/
def specVisibleByte (x : Nat) : String :=
  if x = 0x20 then "·"
  else if x = 0x0D then "<CR>"
  else if x = 0x0A then "<LF>\n"
  else if x = 0x09 then "<TAB>"
  else if 0x21 ≤ x ∧ x ≤ 0x7E then String.mk [Char.ofNat x]
  else "\\x" ++ hex2 x

/-- The whole-buffer visible rendering as the spec words it: the
concatenation of the per-byte renderings of all bytes of the sequence. -/
def specVisibleRender : List Nat → String
  | [] => ""
  | x :: xs => specVisibleByte x ++ specVisibleRender xs

/-- C7 counterexample: the claim fails on a NUL byte for the
`STSBR_STBRT.py` rendering the claim cites: `make_visible` stops at byte
`0x00` instead of rendering `\x00` (dropping all later bytes too), and the
hex line renders `0x00` as a literal NUL character instead of `00`, so the
section for bytes `[0x00, 0x41]` is not the claimed
`"len=2\n\x5Cx00A\nHEX: 00 41"`. -/
theorem make_visible_truncates_at_nul :
    make_visible [0, 65] = "" ∧
      make_visible [0, 65] ≠ specVisibleRender [0, 65] ∧
      hex_line_stn [0] = String.mk [Char.ofNat 0] ∧
      hex_line_stn [0] ≠ "00" ∧
      write_log_section_stn [0, 65] ≠
        "len=2\n\\x00A\nHEX: 00 41" := by decide

/-- C7 amended: for NUL-free byte sequences the claim holds of
`STSBR_STBRT.py`'s section: it contains the byte count, the spec's visible
rendering and the space-separated uppercase two-digit hex dump; and
`STPX.py`'s `visible_bytes` realizes the spec's per-byte rendering for all
byte sequences, NUL included.  A NUL byte, however, truncates
`make_visible` and appears in `STSBR_STBRT.py`'s hex line as a raw NUL
character. -/
theorem transcript_rendering_nul_free (b : List Nat) (h0 : 0 ∉ b) :
    make_visible b = specVisibleRender b ∧
      hex_line_stn b = hex_bytes b ∧
      write_log_section_stn b =
        "len=" ++ toString b.length ++ "\n" ++ specVisibleRender b ++
          "\nHEX: " ++ hex_bytes b := by
  have hvis : make_visible b = specVisibleRender b := by
    induction b with
    | nil => rfl
    | cons x xs ih =>
      have hx : x ≠ 0 := fun he => h0 (he ▸ List.mem_cons_self x xs)
      have hxs : 0 ∉ xs := fun hm => h0 (List.mem_cons_of_mem x hm)
      rw [make_visible, if_neg hx, specVisibleRender, ih hxs]
      rfl
  have hhex : hex_line_stn b = hex_bytes b := by
    rw [hex_line_stn, hex_bytes]
    congr 1
    apply List.map_congr_left
    intro x hx
    have : x ≠ 0 := fun he => h0 (he ▸ hx)
    rw [if_neg this]
  exact ⟨hvis, hhex, by rw [write_log_section_stn, hvis, hhex]⟩

/-- Witness for the amended C7 on the NUL-free response
`b"OK \t\x7f\r\n>"`. -/
theorem transcript_rendering_nul_free_witness :
    make_visible [79, 75, 32, 9, 127, 13, 10, 62] =
        specVisibleRender [79, 75, 32, 9, 127, 13, 10, 62] ∧
      hex_line_stn [79, 75, 32, 9, 127, 13, 10, 62] =
        hex_bytes [79, 75, 32, 9, 127, 13, 10, 62] ∧
      write_log_section_stn [79, 75, 32, 9, 127, 13, 10, 62] =
        "len=" ++ toString ([79, 75, 32, 9, 127, 13, 10, 62] : List Nat).length
          ++ "\n" ++ specVisibleRender [79, 75, 32, 9, 127, 13, 10, 62] ++
          "\nHEX: " ++ hex_bytes [79, 75, 32, 9, 127, 13, 10, 62] :=
  transcript_rendering_nul_free [79, 75, 32, 9, 127, 13, 10, 62] (by decide)

/-- Sanity check tying the rendering to concrete text: the visible
rendering of `b"OK \t\x7f\r\n>"` is exactly
`"OK·<TAB>\x5Cx7F<CR><LF>\n>"` and its hex dump is
`"4F 4B 20 09 7F 0D 0A 3E"`. -/
theorem visible_bytes_concrete :
    visible_bytes [79, 75, 32, 9, 127, 13, 10, 62] =
        "OK·<TAB>\\x7F<CR><LF>\n>" ∧
      hex_bytes [79, 75, 32, 9, 127, 13, 10, 62] =
        "4F 4B 20 09 7F 0D 0A 3E" := by decide

/-! ### Speed-change command classification (C8)

`STN_Scripts/STSBR_STBRT.py` `main` (lines 127-138) classifies with
`cmd.upper().__contains__('STBRT')`, `__contains__('STSBR ')` and
`__contains__('STRSTNVM')` — substring containment.
`STSBR_ATI_CR.py` `send_and_log` (line 126) uses
`cmd.upper().startswith("STSBR ")` and `STSBR_STBRT_115200_delay.py`
`send_and_log` (line 202) uses
`cmd.strip().upper().startswith("STSBR")` — both true prefix tests. -/

def stbrt_check_stn (cmd : List Nat) : Bool :=
  pyContains (upperAscii cmd) (codes "STBRT")

def stsbr_check_stn (cmd : List Nat) : Bool :=
  pyContains (upperAscii cmd) (codes "STSBR ")

def strstnvm_check_stn (cmd : List Nat) : Bool :=
  pyContains (upperAscii cmd) (codes "STRSTNVM")

def stsbr_check_ati (cmd : List Nat) : Bool :=
  pyStartsWith (upperAscii cmd) (codes "STSBR ")

def stsbr_check_115200 (cmd : List Nat) : Bool :=
  pyStartsWith (upperAscii (pyStrip cmd)) (codes "STSBR")

/-- C8 counterexample: `STSBR_STBRT.py`'s `main` classifies the command
line `"AT STBRT 5000"` as a timeout-setting (`STBRT`) command although the
line does not start (case-insensitively) with any of `STBR`, `STSBR`,
`STBRT`, `STRSTNVM` — the name only occurs later in the line — so
classification there is by containment, not "if and only if" by
case-insensitive prefix. -/
theorem stbrt_check_stn_not_prefix_based :
    stbrt_check_stn (codes "AT STBRT 5000") = true ∧
      pyStartsWith (upperAscii (codes "AT STBRT 5000")) (codes "STBR")
          = false ∧
      pyStartsWith (upperAscii (codes "AT STBRT 5000")) (codes "STSBR")
          = false ∧
      pyStartsWith (upperAscii (codes "AT STBRT 5000")) (codes "STBRT")
          = false ∧
      pyStartsWith (upperAscii (codes "AT STBRT 5000")) (codes "STRSTNVM")
          = false := by decide

/-- C8 amended: matching is case-insensitive in all variants, and every
command that matches a recognized name by case-insensitive prefix is
classified; but only `STSBR_ATI_CR.py` and `STSBR_STBRT_115200_delay.py`
match strictly by prefix — `STSBR_STBRT.py`'s `main` classifies by
case-insensitive substring containment, so a command merely containing a
recognized name elsewhere in the line is classified as well. -/
theorem speed_change_classification (cmd : List Nat) :
    (pyStartsWith (upperAscii cmd) (codes "STBRT") = true →
      stbrt_check_stn cmd = true) ∧
    (pyStartsWith (upperAscii cmd) (codes "STSBR ") = true →
      stsbr_check_stn cmd = true ∧ stsbr_check_ati cmd = true) ∧
    (pyStartsWith (upperAscii cmd) (codes "STRSTNVM") = true →
      strstnvm_check_stn cmd = true) := by
  refine ⟨fun h => ?_, fun h => ⟨?_, h⟩, fun h => ?_⟩
  · exact pyStartsWith_pyContains _ _ h
  · exact pyStartsWith_pyContains _ _ h
  · exact pyStartsWith_pyContains _ _ h

/-- Witness for the amended C8 at the lowercase command `"stsbr 115200"`,
which matches `STSBR ` by case-insensitive prefix and is classified by
both the containment-based and the prefix-based variants. -/
theorem speed_change_classification_witness :
    stsbr_check_stn (codes "stsbr 115200") = true ∧
      stsbr_check_ati (codes "stsbr 115200") = true :=
  (speed_change_classification (codes "stsbr 115200")).2.1 (by decide)

/-! ### STSBR rate parsing (C9)

`parse_stsbr_baud` (`STSBR_STBRT_115200_delay.py`, lines 74-85):
`parts = cmd.strip().split()`; if there are at least two parts and
`parts[0].upper() == "STSBR"`, `int(parts[1])` is attempted, `None` on
`ValueError`; otherwise `None`.  `send_stsbr_and_switch_baud`
(`STSBR_ATI_CR.py`, lines 79-96) instead runs
`int([x for x in cmd.split() if x.isdigit()][0])`, which raises
`IndexError` when no all-digit token exists.  `int` is modelled on the
unsigned decimal tokens these scripts produce. -/

def splitWsAux : List Nat → List Nat → List (List Nat)
  | [], acc => if acc.isEmpty then [] else [acc.reverse]
  | c :: rest, acc =>
    if isSpaceByte c then
      if acc.isEmpty then splitWsAux rest []
      else acc.reverse :: splitWsAux rest []
    else splitWsAux rest (c :: acc)

/-- Python `str.split()` with no separator: split on runs of whitespace,
dropping empty fields. -/
def splitWs (s : List Nat) : List (List Nat) := splitWsAux s []

def isDigitByte (c : Nat) : Bool := decide (48 ≤ c ∧ c ≤ 57)

/-- Python `str.isdigit()` on ASCII text: nonempty and all digits. -/
def isDigits (t : List Nat) : Bool := !t.isEmpty && t.all isDigitByte

def digitsToNat (t : List Nat) : Nat :=
  t.foldl (fun a c => a * 10 + (c - 48)) 0

/-- `int(tok)` for the unsigned decimal tokens of these scripts: the value
when `tok` is all digits, `none` (the `ValueError`) otherwise. -/
def pyIntParse (t : List Nat) : Option Nat :=
  if isDigits t then some (digitsToNat t) else none

def parse_stsbr_baud (cmd : List Nat) : Option Nat :=
  match splitWs (pyStrip cmd) with
  | p0 :: p1 :: _ =>
    if upperAscii p0 = codes "STSBR" then pyIntParse p1 else none
  | _ => none

/-- `[x for x in cmd.split() if x.isdigit()][0]` converted with `int`, as
`send_stsbr_and_switch_baud` runs it; `none` models the raised
`IndexError`. -/
def first_digit_token_baud (cmd : List Nat) : Option Nat :=
  (((splitWs cmd).filter isDigits).head?).map digitsToNat

inductive StsbrFastPathOutcome
  | switchedTo (newBaud : Nat)
  | indexErrorRaised
deriving DecidableEq

/-- The outcome of `send_stsbr_and_switch_baud` (`STSBR_ATI_CR.py`): it
either parses a rate and reconfigures the host port to it, or raises
`IndexError`, which `main`'s blanket `except Exception` turns into
aborting the whole session. -/
def send_stsbr_and_switch_baud (cmd : List Nat) : StsbrFastPathOutcome :=
  match first_digit_token_baud cmd with
  | some b => .switchedTo b
  | none => .indexErrorRaised

structure StsbrStep where
  next_num : Nat
  new_baud : Option Nat
  error_logged : Bool
deriving DecidableEq

/-- The STSBR handling of `send_and_log` in
`STSBR_STBRT_115200_delay.py` (lines 202-216 and 239-240): on the STSBR
path an unparseable rate logs an error and falls back to a plain
`read_until_idle` round trip; in every case the function returns
`num + 1`, and the host speed is updated only when a rate was parsed. -/
def send_and_log_115200_stsbr (cmd : List Nat) (num : Nat) : StsbrStep :=
  if stsbr_check_115200 cmd then
    match parse_stsbr_baud cmd with
    | none => { next_num := num + 1, new_baud := none, error_logged := true }
    | some b =>
      { next_num := num + 1, new_baud := some b, error_logged := false }
  else { next_num := num + 1, new_baud := none, error_logged := false }

/-- C9 counterexample: for the malformed speed-change command
`"STSBR abc"`, `STSBR_ATI_CR.py` takes its STSBR fast path and raises
`IndexError` (no digit token to index), so that session aborts instead of
proceeding to the next configured command — the claim that no
speed-change command with an unparseable rate ever raises fails on this
source. -/
theorem send_stsbr_and_switch_baud_raises_on_malformed :
    stsbr_check_ati (codes "STSBR abc") = true ∧
      send_stsbr_and_switch_baud (codes "STSBR abc")
        = .indexErrorRaised := by decide

/-- C9 amended: in `STSBR_STBRT_115200_delay.py` the claim holds — an
STSBR command whose rate cannot be parsed performs zero speed change,
logs an error line, is treated as a plain round trip and the session
proceeds to the next command (`num + 1`); in `STSBR_ATI_CR.py`, however,
a malformed STSBR rate raises `IndexError`, aborting the session. -/
theorem malformed_stsbr_is_nonfatal_in_115200 (cmd : List Nat) (num : Nat)
    (hparse : parse_stsbr_baud cmd = none) :
    (send_and_log_115200_stsbr cmd num).next_num = num + 1 ∧
      (send_and_log_115200_stsbr cmd num).new_baud = none ∧
      (stsbr_check_115200 cmd = true →
        (send_and_log_115200_stsbr cmd num).error_logged = true) ∧
    (first_digit_token_baud cmd = none →
      send_stsbr_and_switch_baud cmd = .indexErrorRaised) := by
  by_cases hc : stsbr_check_115200 cmd
  · simp only [send_and_log_115200_stsbr, if_pos hc, hparse]
    exact ⟨trivial, trivial, fun _ => trivial,
      fun hn => by rw [send_stsbr_and_switch_baud, hn]⟩
  · simp only [send_and_log_115200_stsbr, if_neg hc]
    exact ⟨trivial, trivial, fun hcc => absurd hcc hc,
      fun hn => by rw [send_stsbr_and_switch_baud, hn]⟩

/-- Witness for the amended C9 at the malformed command `"STSBR abc"`:
the 115200 script logs the error, changes no speed and proceeds, while
the ATI script raises. -/
theorem malformed_stsbr_is_nonfatal_in_115200_witness :
    (send_and_log_115200_stsbr (codes "STSBR abc") 3).next_num = 4 ∧
      (send_and_log_115200_stsbr (codes "STSBR abc") 3).new_baud = none ∧
      (stsbr_check_115200 (codes "STSBR abc") = true →
        (send_and_log_115200_stsbr (codes "STSBR abc") 3).error_logged
          = true) ∧
    (first_digit_token_baud (codes "STSBR abc") = none →
      send_stsbr_and_switch_baud (codes "STSBR abc")
        = .indexErrorRaised) :=
  malformed_stsbr_is_nonfatal_in_115200 (codes "STSBR abc") 3 (by decide)

/-! ### The block parser of the log-comparison utility (C10)

`load_blocks` (`Testing_logs/main.py`, lines 26-39): scan lines; a line
whose stripped form starts and ends with `---` opens a new block keyed by
that stripped line, flushing the previous block into `blocks_by_header`
(a dict insertion: an existing key keeps its position but its value is
replaced); other lines extend the current block; preamble lines before any
header are ignored; the final block is flushed at the end. -/

def isHeaderLine (ln : List Nat) : Bool :=
  pyStartsWith (pyStrip ln) (codes "---") &&
    pyEndsWith (pyStrip ln) (codes "---")

/-- Python dict insertion on an ordered association list: replace in place
when the key exists, append otherwise. -/
def odInsert (m : List (List Nat × List (List Nat))) (k : List Nat)
    (v : List (List Nat)) : List (List Nat × List (List Nat)) :=
  match m with
  | [] => [(k, v)]
  | (k', v') :: rest =>
    if k' = k then (k, v) :: rest else (k', v') :: odInsert rest k v

def load_blocks_aux : List (List Nat) → Option (List Nat) → List (List Nat) →
    List (List Nat × List (List Nat)) → List (List Nat × List (List Nat))
  | [], none, _, m => m
  | [], some h, buf, m => odInsert m h buf
  | ln :: rest, none, buf, m =>
    if isHeaderLine ln then load_blocks_aux rest (some (pyStrip ln)) [] m
    else load_blocks_aux rest none buf m
  | ln :: rest, some h, buf, m =>
    if isHeaderLine ln then
      load_blocks_aux rest (some (pyStrip ln)) [] (odInsert m h buf)
    else load_blocks_aux rest (some h) (buf ++ [ln]) m

def load_blocks (lines : List (List Nat)) :
    List (List Nat × List (List Nat)) :=
  load_blocks_aux lines none [] []

theorem odInsert_keys_subset (k : List Nat) (v : List (List Nat)) :
    ∀ (m : List (List Nat × List (List Nat))) (x : List Nat),
      x ∈ (odInsert m k v).map Prod.fst → x ∈ m.map Prod.fst ∨ x = k := by
  intro m
  induction m with
  | nil =>
    intro x hx
    simp [odInsert] at hx
    exact Or.inr hx
  | cons p rest ih =>
    intro x hx
    rw [odInsert] at hx
    by_cases he : p.1 = k
    · rw [if_pos he] at hx
      rw [List.map_cons, List.mem_cons] at hx
      rcases hx with rfl | hx
      · exact Or.inr rfl
      · exact Or.inl (by rw [List.map_cons]; exact List.mem_cons_of_mem _ hx)
    · rw [if_neg he] at hx
      rw [List.map_cons, List.mem_cons] at hx
      rcases hx with rfl | hx
      · exact Or.inl (by rw [List.map_cons]; exact List.mem_cons_self _ _)
      · rcases ih x hx with h | h
        · exact Or.inl (by rw [List.map_cons]; exact List.mem_cons_of_mem _ h)
        · exact Or.inr h

theorem odInsert_keys_nodup (m : List (List Nat × List (List Nat)))
    (k : List Nat) (v : List (List Nat))
    (hm : (m.map Prod.fst).Nodup) : ((odInsert m k v).map Prod.fst).Nodup := by
  induction m with
  | nil => simp [odInsert]
  | cons p rest ih =>
    rw [List.map_cons, List.nodup_cons] at hm
    rw [odInsert]
    by_cases he : p.1 = k
    · rw [if_pos he, List.map_cons, List.nodup_cons]
      exact ⟨by rw [← he]; exact hm.1, hm.2⟩
    · rw [if_neg he, List.map_cons, List.nodup_cons]
      refine ⟨fun hcon => ?_, ih hm.2⟩
      rcases odInsert_keys_subset k v rest p.1 hcon with h | h
      · exact hm.1 h
      · exact he h

theorem load_blocks_aux_keys_nodup :
    ∀ (lines : List (List Nat)) (cur : Option (List Nat))
      (buf : List (List Nat)) (m : List (List Nat × List (List Nat))),
      (m.map Prod.fst).Nodup →
      ((load_blocks_aux lines cur buf m).map Prod.fst).Nodup := by
  intro lines
  induction lines with
  | nil =>
    intro cur buf m hm
    cases cur with
    | none => exact hm
    | some h => exact odInsert_keys_nodup m h buf hm
  | cons ln rest ih =>
    intro cur buf m hm
    cases cur with
    | none =>
      rw [load_blocks_aux]
      by_cases hh : isHeaderLine ln
      · rw [if_pos hh]; exact ih _ _ _ hm
      · rw [if_neg hh]; exact ih _ _ _ hm
    | some h =>
      rw [load_blocks_aux]
      by_cases hh : isHeaderLine ln
      · rw [if_pos hh]; exact ih _ _ _ (odInsert_keys_nodup m h buf hm)
      · rw [if_neg hh]; exact ih _ _ _ hm

/-- C10: in `load_blocks`, character-for-character identical header lines
within one file collapse to a single map entry — the parsed block map
never holds two entries with the same header (its keys are nodup for every
input), and when a header repeats, the retained content is that of the
last such block, the earlier block's lines being discarded: parsing
`["--- [0] ATI ---", "first", "--- [0] ATI ---", "second"]` yields exactly
one block, keyed by the header, holding only `"second"`. -/
theorem load_blocks_last_duplicate_header_wins :
    (∀ lines : List (List Nat),
      ((load_blocks lines).map Prod.fst).Nodup) ∧
    load_blocks
        [codes "--- [0] ATI ---", codes "first", codes "--- [0] ATI ---",
          codes "second"] =
      [(codes "--- [0] ATI ---", [codes "second"])] :=
  ⟨fun lines => load_blocks_aux_keys_nodup lines none [] [] (by simp),
    by decide⟩
